import Mathlib

/-!
Verification development for the kimi-cli session log and registry engine
(`src/kimi_cli/metadata.py` and `src/kimi_cli/ui/shell/metacmd.py`).

The Python code is shallowly embedded: JSON values become an inductive type,
the filesystem becomes an explicit state record, `json.loads` fallibility is
modelled by a `Line` type (a physical line either is blank, fails to decode,
or decodes to a JSON value), and Python exceptions become `Except` /
early-return control flow made explicit in the recursion.
-/

namespace KimiCli

/-- JSON values as produced by `json.loads` (numbers restricted to integers;
the code under scrutiny never inspects numeric content). -/
inductive Json where
  | str (s : String)
  | num (n : Int)
  | bool (b : Bool)
  | null
  | arr (elts : List Json)
  | obj (fields : List (String × Json))

/-- Last-occurrence lookup in a JSON object: `json.loads` builds a Python
dict, so a duplicated key keeps the last value. `d.get(k)` returns `None`
(here `none`) when the key is absent. -/
def lookupLast (fields : List (String × Json)) (key : String) : Option Json :=
  match fields with
  | [] => none
  | (k, v) :: rest =>
    match lookupLast rest key with
    | some w => some w
    | none => if k = key then some v else none

/-! Python string primitives, modelled at the character-list level (Python
strings are sequences of code points, as `String.data` is; the list forms
also reduce inside the kernel, which the claims' concrete evaluations
need). -/

/-- Python `s[:n]`. -/
def pyTake (s : String) (n : Nat) : String := String.mk (s.data.take n)

/-- Python `s.strip()` (ASCII whitespace; the code never meets the further
Unicode space characters Python would also strip). -/
def pyStrip (s : String) : String :=
  String.mk
    (((s.data.dropWhile Char.isWhitespace).reverse.dropWhile Char.isWhitespace).reverse)

/-- Python `s.startswith(p)`. -/
def pyStartsWith (s p : String) : Bool := p.data.isPrefixOf s.data

/-- Python `s.endswith(p)`. -/
def pyEndsWith (s p : String) : Bool := p.data.reverse.isPrefixOf s.data.reverse

/-- Python truthiness test on a JSON value (`if not content: ...`). -/
def pyFalsy : Json → Bool
  | .str s => s = ""
  | .num n => n = 0
  | .bool b => !b
  | .null => true
  | .arr elts => elts.isEmpty
  | .obj fields => fields.isEmpty

/-- Python `str(...)` applied to a decoded JSON value, as in
`str(part_dict["text"])`. Exact for the scalar shapes the preview logic
meets; the container fallback is a placeholder (Python would print a repr,
which no claim evaluates). -/
def pyStr : Json → String
  | .str s => s
  | .num n => toString n
  | .bool b => if b then "True" else "False"
  | .null => "None"
  | .arr _ => "<list>"
  | .obj _ => "<dict>"

/-- One physical line of a `.jsonl` session file: blank (skipped after
`strip()`), failing to decode in `json.loads` (raises), or decoding to a
JSON value. -/
inductive Line where
  | blank
  | bad
  | record (j : Json)

/-- The `info` dict built by `_get_session_info` (metadata.py:91-96):
file mtime, message count, checkpoint count, and the preview text
(`first_message`). -/
structure SessionInfo where
  timestamp : Int
  numMessages : Nat
  numCheckpoints : Nat
  firstMessage : Option String
  deriving DecidableEq, Repr

/-- `data.get("role")` narrowed to the string comparisons the code makes:
only a JSON string can equal `"_checkpoint"` / `"user"` / `"assistant"`. -/
def roleOf (fields : List (String × Json)) : Option String :=
  match lookupLast fields "role" with
  | some (.str r) => some r
  | _ => none

/-- Text extraction from a message `content` value (metadata.py:119-131):
a plain string, or a non-empty list whose first element is a string or a
dict with a `"text"` entry; anything else yields no text. -/
def extractText : Json → Option String
  | .str s => some s
  | .arr (first :: _) =>
    match first with
    | .str s => some s
    | .obj d =>
      match lookupLast d "text" with
      | some v => some (pyStr v)
      | none => none
    | _ => none
  | _ => none

/-- The preview branch of `_get_session_info` (metadata.py:113-139), run for
a `user` message while `first_message` is still unset: falsy content is
skipped, the three content shapes are normalized, `<system>...</system>`
wrapped text is skipped, and the survivor is truncated to 50 characters and
stripped. -/
def previewUpdate (content : Option Json) (info : SessionInfo) : SessionInfo :=
  match content with
  | none => info
  | some c =>
    if pyFalsy c then info
    else
      match extractText c with
      | none => info
      | some text =>
        if pyStartsWith text "<system>" && pyEndsWith text "</system>" then info
        else { info with firstMessage := some (pyStrip (pyTake text 50)) }

/-- Processing of one decoded JSON object record (metadata.py:105-139). -/
def recordStep (fields : List (String × Json)) (info : SessionInfo) : SessionInfo :=
  match roleOf fields with
  | some r =>
    if r = "_checkpoint" then
      { info with numCheckpoints := info.numCheckpoints + 1 }
    else if r = "user" || r = "assistant" then
      let info1 := { info with numMessages := info.numMessages + 1 }
      if info1.firstMessage = none && r = "user" then
        previewUpdate (lookupLast fields "content") info1
      else info1
    else info
  | none => info

/-- The line loop of `_get_session_info` (metadata.py:99-139). A line that
fails to decode — or decodes to a non-object, so that `data.get` raises —
throws; the `except` clause (metadata.py:140) catches it and the counts
accumulated so far are returned, the remaining lines unread. -/
def sessionScan (lines : List Line) (info : SessionInfo) : SessionInfo :=
  match lines with
  | [] => info
  | .blank :: rest => sessionScan rest info
  | .bad :: _ => info
  | .record j :: rest =>
    match j with
    | .obj fields => sessionScan rest (recordStep fields info)
    | _ => info

/-- `_get_session_info(session_file)` (metadata.py:87-144), the file given as
its mtime plus its physical lines. -/
def getSessionInfo (mtime : Int) (lines : List Line) : SessionInfo :=
  sessionScan lines
    { timestamp := mtime, numMessages := 0, numCheckpoints := 0, firstMessage := none }

/-! ## MD5

`WorkDirMeta.sessions_dir` names the per-working-directory namespace with
`md5(self.path.encode()).hexdigest()` (metadata.py:27). The digest is
embedded in full (RFC 1321), on `Nat` with explicit reduction modulo 2^32. -/

namespace MD5

def mask32 : Nat := 4294967295

/-- 32-bit left rotation. -/
def rotl32 (x s : Nat) : Nat :=
  ((x <<< s) &&& mask32) ||| (x >>> (32 - s))

/-- Round constants: `K[i] = floor(2^32 * |sin(i+1)|)`. -/
def kTable : List Nat :=
  [0xd76aa478, 0xe8c7b756, 0x242070db, 0xc1bdceee,
   0xf57c0faf, 0x4787c62a, 0xa8304613, 0xfd469501,
   0x698098d8, 0x8b44f7af, 0xffff5bb1, 0x895cd7be,
   0x6b901122, 0xfd987193, 0xa679438e, 0x49b40821,
   0xf61e2562, 0xc040b340, 0x265e5a51, 0xe9b6c7aa,
   0xd62f105d, 0x02441453, 0xd8a1e681, 0xe7d3fbc8,
   0x21e1cde6, 0xc33707d6, 0xf4d50d87, 0x455a14ed,
   0xa9e3e905, 0xfcefa3f8, 0x676f02d9, 0x8d2a4c8a,
   0xfffa3942, 0x8771f681, 0x6d9d6122, 0xfde5380c,
   0xa4beea44, 0x4bdecfa9, 0xf6bb4b60, 0xbebfbc70,
   0x289b7ec6, 0xeaa127fa, 0xd4ef3085, 0x04881d05,
   0xd9d4d039, 0xe6db99e5, 0x1fa27cf8, 0xc4ac5665,
   0xf4292244, 0x432aff97, 0xab9423a7, 0xfc93a039,
   0x655b59c3, 0x8f0ccc92, 0xffeff47d, 0x85845dd1,
   0x6fa87e4f, 0xfe2ce6e0, 0xa3014314, 0x4e0811a1,
   0xf7537e82, 0xbd3af235, 0x2ad7d2bb, 0xeb86d391]

/-- Per-round left-rotation amounts. -/
def sTable : List Nat :=
  [7, 12, 17, 22, 7, 12, 17, 22, 7, 12, 17, 22, 7, 12, 17, 22,
   5, 9, 14, 20, 5, 9, 14, 20, 5, 9, 14, 20, 5, 9, 14, 20,
   4, 11, 16, 23, 4, 11, 16, 23, 4, 11, 16, 23, 4, 11, 16, 23,
   6, 10, 15, 21, 6, 10, 15, 21, 6, 10, 15, 21, 6, 10, 15, 21]

/-- UTF-8 encoding of one character, as `str.encode()` produces. -/
def encodeChar (c : Char) : List Nat :=
  let n := c.toNat
  if n < 0x80 then [n]
  else if n < 0x800 then
    [0xC0 ||| (n >>> 6), 0x80 ||| (n &&& 0x3F)]
  else if n < 0x10000 then
    [0xE0 ||| (n >>> 12), 0x80 ||| ((n >>> 6) &&& 0x3F), 0x80 ||| (n &&& 0x3F)]
  else
    [0xF0 ||| (n >>> 18), 0x80 ||| ((n >>> 12) &&& 0x3F),
     0x80 ||| ((n >>> 6) &&& 0x3F), 0x80 ||| (n &&& 0x3F)]

/-- `path.encode()`: the UTF-8 byte sequence of a string. -/
def utf8Bytes (s : String) : List Nat :=
  (s.data.map encodeChar).flatten

/-- MD5 padding: append `0x80`, zero-fill to 56 mod 64, then the original
bit length as 8 little-endian bytes. -/
def padMessage (msg : List Nat) : List Nat :=
  let lenBits := msg.length * 8
  let withOne := msg ++ [0x80]
  let zeros := (120 - withOne.length % 64) % 64
  withOne ++ List.replicate zeros 0 ++
    (List.range 8).map (fun i => (lenBits >>> (8 * i)) % 256)

/-- A 64-byte chunk as 16 little-endian 32-bit words. -/
def chunkWords (chunk : List Nat) : List Nat :=
  (List.range 16).map (fun j =>
    chunk.getD (4 * j) 0 + chunk.getD (4 * j + 1) 0 * 256 +
    chunk.getD (4 * j + 2) 0 * 65536 + chunk.getD (4 * j + 3) 0 * 16777216)

/-- One of the 64 MD5 rounds. -/
def roundStep (m : List Nat) (st : Nat × Nat × Nat × Nat) (i : Nat) :
    Nat × Nat × Nat × Nat :=
  let a := st.1
  let b := st.2.1
  let c := st.2.2.1
  let d := st.2.2.2
  let f :=
    if i < 16 then (b &&& c) ||| ((b ^^^ mask32) &&& d)
    else if i < 32 then (d &&& b) ||| ((d ^^^ mask32) &&& c)
    else if i < 48 then b ^^^ c ^^^ d
    else c ^^^ (b ||| (d ^^^ mask32))
  let g :=
    if i < 16 then i
    else if i < 32 then (5 * i + 1) % 16
    else if i < 48 then (3 * i + 5) % 16
    else (7 * i) % 16
  let f2 := (f + a + kTable.getD i 0 + m.getD g 0) % 4294967296
  (d, (b + rotl32 f2 (sTable.getD i 0)) % 4294967296, b, c)

/-- Process one 64-byte chunk. -/
def processChunk (st : Nat × Nat × Nat × Nat) (chunk : List Nat) :
    Nat × Nat × Nat × Nat :=
  let m := chunkWords chunk
  let r := (List.range 64).foldl (roundStep m) st
  ((st.1 + r.1) % 4294967296, (st.2.1 + r.2.1) % 4294967296,
   (st.2.2.1 + r.2.2.1) % 4294967296, (st.2.2.2 + r.2.2.2) % 4294967296)

def chunksOf64 (bytes : List Nat) : List (List Nat) :=
  (List.range (bytes.length / 64)).map (fun i => (bytes.drop (64 * i)).take 64)

def md5State (bytes : List Nat) : Nat × Nat × Nat × Nat :=
  (chunksOf64 (padMessage bytes)).foldl processChunk
    (0x67452301, 0xefcdab89, 0x98badcfe, 0x10325476)

def hexChar (n : Nat) : Char := "0123456789abcdef".data.getD n 'x'

def byteHex (b : Nat) : String := String.mk [hexChar (b / 16), hexChar (b % 16)]

/-- One state word as 4 little-endian hex byte pairs. -/
def wordLEHex (w : Nat) : String :=
  byteHex (w % 256) ++ byteHex ((w >>> 8) % 256) ++
  byteHex ((w >>> 16) % 256) ++ byteHex ((w >>> 24) % 256)

/-- `md5(s.encode()).hexdigest()`. -/
def md5hex (s : String) : String :=
  let st := md5State (utf8Bytes s)
  wordLEHex st.1 ++ wordLEHex st.2.1 ++ wordLEHex st.2.2.1 ++ wordLEHex st.2.2.2

end MD5

/-! ## Metadata store

`Metadata` / `WorkDirMeta` (metadata.py:16-37) with pydantic
serialization modelled at the JSON-value level: `json.dump`/`json.load`
of a JSON document are inverse on the value, so the file is modelled as
holding either a JSON value or text that `json.load` rejects. -/

/-- `WorkDirMeta` (metadata.py:16-23). -/
structure WorkDirMeta where
  path : String
  last_session_id : Option String
  deriving DecidableEq, Repr

/-- `Metadata` (metadata.py:32-37). -/
structure Metadata where
  work_dirs : List WorkDirMeta
  deriving DecidableEq, Repr

/-- `WorkDirMeta.sessions_dir` (metadata.py:25-29), as a path relative to the
share directory (`get_share_dir()` is outside the embedded sources and acts
as the model's filesystem root). The Python property also creates the
directory; directory existence is not part of this model's state. -/
def sessions_dir_of (path : String) : String :=
  "sessions/" ++ MD5.md5hex path

/-- `WorkDirMeta.model_dump()` of one record. -/
def dumpWorkDir (wd : WorkDirMeta) : Json :=
  .obj [("path", .str wd.path),
        ("last_session_id",
          match wd.last_session_id with
          | some s => .str s
          | none => .null)]

/-- `metadata.model_dump()` as the JSON document `json.dump` writes
(metadata.py:55). -/
def dumpMetadata (m : Metadata) : Json :=
  .obj [("work_dirs", .arr (m.work_dirs.map dumpWorkDir))]

/-- Pydantic validation of one work-directory record: `path` must be a
string; `last_session_id` is optional and must be a string or null; extra
keys are ignored (pydantic default config). -/
def parseWorkDir (j : Json) : Except String WorkDirMeta :=
  match j with
  | .obj fields =>
    match lookupLast fields "path" with
    | some (.str p) =>
      match lookupLast fields "last_session_id" with
      | none => .ok ⟨p, none⟩
      | some .null => .ok ⟨p, none⟩
      | some (.str s) => .ok ⟨p, some s⟩
      | some _ => .error "last_session_id: not a string or null"
    | _ => .error "path: missing or not a string"
  | _ => .error "work dir record: not an object"

/-- Pydantic validation of the `work_dirs` list, element by element, first
failure aborting. -/
def parseWorkDirs : List Json → Except String (List WorkDirMeta)
  | [] => .ok []
  | j :: rest =>
    match parseWorkDir j with
    | .error e => .error e
    | .ok wd =>
      match parseWorkDirs rest with
      | .error e => .error e
      | .ok wds => .ok (wd :: wds)

/-- `Metadata(**data)` (metadata.py:48): the document must be a JSON object
(anything else makes the `**` splat or pydantic raise); `work_dirs` defaults
to the empty list when absent and must otherwise be a list of valid
work-directory records. -/
def parseMetadata (j : Json) : Except String Metadata :=
  match j with
  | .obj fields =>
    match lookupLast fields "work_dirs" with
    | none => .ok ⟨[]⟩
    | some (.arr elts) =>
      match parseWorkDirs elts with
      | .ok wds => .ok ⟨wds⟩
      | .error e => .error e
    | some _ => .error "work_dirs: not a list"
  | _ => .error "metadata document: not an object"

/-- Contents of the metadata document slot: a JSON document, or text that
`json.load` rejects. -/
inductive FileContent where
  | jsonText (j : Json)
  | malformedText

/-- The exception `load_metadata` lets escape: `json.JSONDecodeError` from
`json.load`, or pydantic `ValidationError` from `Metadata(**data)`. -/
inductive LoadErr where
  | jsonDecodeFailure
  | validationFailure (msg : String)
  deriving DecidableEq, Repr

/-- `load_metadata()` (metadata.py:40-48): absent file yields a fresh empty
`Metadata()`; otherwise `json.load` then `Metadata(**data)`, either of
which may raise (neither is caught). -/
def load_metadata (file : Option FileContent) : Except LoadErr Metadata :=
  match file with
  | none => .ok ⟨[]⟩
  | some .malformedText => .error .jsonDecodeFailure
  | some (.jsonText j) =>
    match parseMetadata j with
    | .ok m => .ok m
    | .error e => .error (.validationFailure e)

/-- Relative path of the metadata document, `get_share_dir() / "kimi.json"`
(metadata.py:12-13), with the share directory as model root. -/
def metadata_file_path : String := "kimi.json"

/-- The filesystem syscall trace of a function, for stating how
`save_metadata` touches the disk. -/
inductive FsOp where
  | openTruncate (path : String)
  | writeDoc (path : String) (doc : Json)
  | rename (srcPath dstPath : String)

/-- The operations `save_metadata` performs (metadata.py:51-55):
`open(metadata_file, "w")` — which truncates the live document in place —
followed by `json.dump` of the serialized registry into that handle. -/
def save_metadata_ops (m : Metadata) : List FsOp :=
  [.openTruncate metadata_file_path,
   .writeDoc metadata_file_path (dumpMetadata m)]

/-! ## Filesystem state and the session catalog -/

/-- One file in a namespace directory: its directory, its name, its mtime
(`stat().st_mtime`), and its physical lines. -/
structure SessFile where
  dir : String
  name : String
  mtime : Int
  lines : List Line

/-- The slice of the filesystem the embedded functions touch: the metadata
document slot and the session files. -/
structure FileSystem where
  metadataFile : Option FileContent
  sessionFiles : List SessFile

/-- `save_metadata(metadata)` (metadata.py:51-55) as a state transform: the
whole serialized registry replaces the metadata document. -/
def save_metadata (fs : FileSystem) (m : Metadata) : FileSystem :=
  { fs with metadataFile := some (.jsonText (dumpMetadata m)) }

/-- `Path.exists()` for a session file. -/
def fileExists (fs : FileSystem) (dir name : String) : Bool :=
  fs.sessionFiles.any (fun f => f.dir = dir && f.name = name)

/-- The `Session(...)` value `load_session` returns (its construction lives
in the excluded `kimi_cli.session` module; only these three fields are
passed). -/
structure Session where
  id : String
  work_dir : String
  history_file : String
  deriving DecidableEq, Repr

/-- `work_dir_meta.last_session_id = session_id` (metadata.py:79): Python
mutates the record `next(...)` found, i.e. the first record whose path
matches. -/
def setLastSessionFirst : List WorkDirMeta → String → String → List WorkDirMeta
  | [], _, _ => []
  | wd :: rest, p, sid =>
    if wd.path = p then { wd with last_session_id := some sid } :: rest
    else wd :: setLastSessionFirst rest p sid

/-- `load_session(work_dir, session_id)` (metadata.py:58-84). Returns the
optional `Session` and the filesystem after the call; an exception escaping
`load_metadata` escapes `load_session` too. The `sessions_dir` property's
`mkdir` side effect touches only directory existence, which this state does
not track. -/
def load_session (fs : FileSystem) (work_dir : String) (session_id : String) :
    Except LoadErr (Option Session × FileSystem) :=
  match load_metadata fs.metadataFile with
  | .error e => .error e
  | .ok metadata =>
    match metadata.work_dirs.find? (fun wd => wd.path = work_dir) with
    | none => .ok (none, fs)
    | some work_dir_meta =>
      let dir := sessions_dir_of work_dir_meta.path
      if fileExists fs dir (session_id ++ ".jsonl") then
        .ok (some { id := session_id, work_dir := work_dir,
                    history_file := dir ++ "/" ++ session_id ++ ".jsonl" },
             save_metadata fs ⟨setLastSessionFirst metadata.work_dirs work_dir session_id⟩)
      else
        .ok (none, fs)

/-- One element of the list `list_sessions` returns: the tuple
`(session_id, session_file, info)` plus the `is_current` flag the function
adds to `info` (metadata.py:173). -/
structure SessionEntry where
  id : String
  file : String
  info : SessionInfo
  isCurrent : Bool
  deriving DecidableEq, Repr

/-- `Path.stem` of a `*.jsonl` name: the name without its `.jsonl` suffix. -/
def stemOf (name : String) : String :=
  String.mk (name.data.take (name.data.length - 6))

/-- The entry `list_sessions` builds for one surviving file
(metadata.py:171-175): id from the stem, the file path, the summary from
`_get_session_info`, and the `is_current` cross-reference against
`last_session_id`. -/
def entryOf (work_dir_meta : WorkDirMeta) (f : SessFile) : SessionEntry :=
  { id := stemOf f.name,
    file := f.dir ++ "/" ++ f.name,
    info := getSessionInfo f.mtime f.lines,
    isCurrent := work_dir_meta.last_session_id = some (stemOf f.name) }

/-- `list_sessions(work_dir)` (metadata.py:147-181): resolve the namespace,
take the `*.jsonl` files, skip any whose stem contains `"_"` (backup files
from revert forks), summarize each survivor, and sort by mtime descending.
Python's `sort(key=..., reverse=True)` is a stable descending sort,
modelled by the stable `insertionSort` under the "newer or equal first"
relation. -/
def list_sessions (fs : FileSystem) (work_dir : String) :
    Except LoadErr (List SessionEntry) :=
  match load_metadata fs.metadataFile with
  | .error e => .error e
  | .ok metadata =>
    match metadata.work_dirs.find? (fun wd => wd.path = work_dir) with
    | none => .ok []
    | some work_dir_meta =>
      let dir := sessions_dir_of work_dir_meta.path
      let globbed := fs.sessionFiles.filter
        (fun f => f.dir = dir && pyEndsWith f.name ".jsonl")
      let live := globbed.filter (fun f => !(stemOf f.name).data.contains '_')
      let entries := live.map (entryOf work_dir_meta)
      .ok (entries.insertionSort (fun a b => b.info.timestamp ≤ a.info.timestamp))

/-! ## Meta-command registry (`ui/shell/metacmd.py`)

The two module-level dicts become an explicit state; Python dict insertion
(keep position, overwrite value; append new keys) is `dictInsert`. A
handler function is represented by an opaque numeric tag plus the
attributes the decorator reads (`__name__`, `__doc__`). -/

/-- `MetaCommand` (metacmd.py:41-53) with the handler as an opaque tag. -/
structure MetaCommand where
  name : String
  description : String
  funcTag : Nat
  aliases : List String
  kimiSoulOnly : Bool
  deriving DecidableEq, Repr

/-- A Python dict with string keys, as an association list with unique keys
in insertion order. -/
abbrev CmdDict := List (String × MetaCommand)

/-- `d[k] = v`: overwrite in place if the key exists, else append. -/
def dictInsert (d : CmdDict) (k : String) (v : MetaCommand) : CmdDict :=
  match d with
  | [] => [(k, v)]
  | (k0, v0) :: rest =>
    if k0 = k then (k, v) :: rest else (k0, v0) :: dictInsert rest k v

/-- `d.get(k)`: the value stored under the key, `None` when absent. -/
def dictGet : CmdDict → String → Option MetaCommand
  | [], _ => none
  | (k0, v0) :: rest, k => if k0 = k then some v0 else dictGet rest k

/-- The module-level registries `_meta_commands` and `_meta_command_aliases`
(metacmd.py:56-59). -/
structure MetaCmdState where
  commands : CmdDict
  commandAliases : CmdDict

/-- The state at import time, before any decorator runs. -/
def emptyMetaCmdState : MetaCmdState := ⟨[], []⟩

/-- One use of the `meta_command` decorator: the keyword arguments plus the
decorated function's `__name__`, `__doc__`, and opaque identity. -/
structure Registration where
  nameArg : Option String
  aliasesArg : Option (List String)
  kimiSoulOnly : Bool
  funcName : String
  funcDoc : Option String
  funcTag : Nat

/-- `name or f.__name__` (metacmd.py:111): Python `or` falls through on an
empty (falsy) string. -/
def primaryOf (r : Registration) : String :=
  match r.nameArg with
  | some n => if n = "" then r.funcName else n
  | none => r.funcName

/-- `list(aliases) if aliases else []` (metacmd.py:112). -/
def aliasListOf (r : Registration) : List String :=
  match r.aliasesArg with
  | some l => if l.isEmpty then [] else l
  | none => []

/-- The `MetaCommand` value `_register` constructs (metacmd.py:115-121). -/
def commandOf (r : Registration) : MetaCommand :=
  { name := primaryOf r,
    description := pyStrip (r.funcDoc.getD ""),
    funcTag := r.funcTag,
    aliases := aliasListOf r,
    kimiSoulOnly := r.kimiSoulOnly }

/-- `_register(f)` (metacmd.py:110-131): store the command under its primary
name in both dicts, then under each alias in the alias dict. -/
def registerMetaCommand (st : MetaCmdState) (r : Registration) : MetaCmdState :=
  let cmd := commandOf r
  { commands := dictInsert st.commands (primaryOf r) cmd,
    commandAliases :=
      (aliasListOf r).foldl (fun d a => dictInsert d a cmd)
        (dictInsert st.commandAliases (primaryOf r) cmd) }

/-- `get_meta_command(name)` (metacmd.py:62-63). -/
def get_meta_command (st : MetaCmdState) (name : String) : Option MetaCommand :=
  dictGet st.commandAliases name

/-- `get_meta_commands()` (metacmd.py:66-68). -/
def get_meta_commands (st : MetaCmdState) : List MetaCommand :=
  st.commands.map (·.2)

/-- A sequence of decorator uses applied to the import-time empty state. -/
def applyRegistrations (regs : List Registration) : MetaCmdState :=
  regs.foldl registerMetaCommand emptyMetaCmdState

/-! ## The `clear` and `compact` meta commands (metacmd.py:235-260)

Modelled as the trace of observable effects each handler performs as a
function of `app.soul._context.n_checkpoints` (rich markup around the
printed text omitted). -/

inductive UiEffect where
  | print (msg : String)
  | revertTo (idx : Nat)
  | compactContext
  deriving DecidableEq, Repr

/-- `clear` (metacmd.py:235-245): on an empty context print and return,
otherwise `revert_to(0)` then print. -/
def clear (nCheckpoints : Nat) : List UiEffect :=
  if nCheckpoints = 0 then [.print "Context is empty."]
  else [.revertTo 0, .print "✓ Context has been cleared."]

/-- `compact` (metacmd.py:248-260): on an empty context print and return,
otherwise compact then print. -/
def compact (nCheckpoints : Nat) : List UiEffect :=
  if nCheckpoints = 0 then [.print "Context is empty."]
  else [.compactContext, .print "✓ Context has been compacted."]

/-! ## Spec-side preview definition

For the preview claim, a second definition written from the spec's words
(§4.4: "`preview_text` = the text of the first `user` message that is not
itself a wrapped system-injected message ..., truncated to a fixed display
width"), to be compared with the embedded `getSessionInfo`. -/

/-- A line the summarizer can process without raising: blank, or a record
decoding to a JSON object. -/
def goodLine : Line → Bool
  | .blank => true
  | .bad => false
  | .record (.obj _) => true
  | .record _ => false

/-- The normalized preview text a single user record offers: content must
be present and truthy, of one of the three recognized shapes, and not
wrapped in the `<system>...</system>` delimiters; the survivor is truncated
to the 50-character display width and stripped. -/
def specUserText (fields : List (String × Json)) : Option String :=
  match lookupLast fields "content" with
  | none => none
  | some c =>
    if pyFalsy c then none
    else
      match extractText c with
      | none => none
      | some text =>
        if pyStartsWith text "<system>" && pyEndsWith text "</system>" then none
        else some (pyStrip (pyTake text 50))

/-- The spec's description of the preview: the normalized text of the first
`user` message that offers one (a wrapped system-injected message, or one
with no extractable text, yields nothing from that message and the scan
moves on). -/
def specFirstPreview : List Line → Option String
  | [] => none
  | .record (.obj fields) :: rest =>
    if roleOf fields = some "user" then
      match specUserText fields with
      | some t => some t
      | none => specFirstPreview rest
    else specFirstPreview rest
  | _ :: rest => specFirstPreview rest

/-- Decidable equality for `Except`, so concrete runs of the fallible
operations can be checked by evaluation. -/
instance exceptDecEq {ε α : Type} [DecidableEq ε] [DecidableEq α] :
    DecidableEq (Except ε α) := fun x y =>
  match x, y with
  | .ok a, .ok b =>
    if h : a = b then .isTrue (by rw [h])
    else .isFalse (by intro hc; cases hc; exact h rfl)
  | .error a, .error b =>
    if h : a = b then .isTrue (by rw [h])
    else .isFalse (by intro hc; cases hc; exact h rfl)
  | .ok _, .error _ => .isFalse (by intro hc; cases hc)
  | .error _, .ok _ => .isFalse (by intro hc; cases hc)

/-! ## Round-trip lemmas for the metadata document -/

lemma parseWorkDir_dumpWorkDir (wd : WorkDirMeta) :
    parseWorkDir (dumpWorkDir wd) = .ok wd := by
  cases wd with
  | mk p ls => cases ls <;> rfl

lemma parseWorkDirs_dump (l : List WorkDirMeta) :
    parseWorkDirs (l.map dumpWorkDir) = .ok l := by
  induction l with
  | nil => rfl
  | cons wd rest ih =>
    simp [parseWorkDirs, parseWorkDir_dumpWorkDir, ih]

lemma parseMetadata_dumpMetadata (m : Metadata) :
    parseMetadata (dumpMetadata m) = .ok m := by
  cases m with
  | mk dirs =>
    simp [parseMetadata, dumpMetadata, lookupLast, parseWorkDirs_dump]

/-! ## Dictionary lemmas for the meta-command registry -/

/-- The keys of a dict, in insertion order. -/
def dictKeys (d : CmdDict) : List String := d.map Prod.fst

lemma dictGet_insert_self (d : CmdDict) (k : String) (v : MetaCommand) :
    dictGet (dictInsert d k v) k = some v := by
  induction d with
  | nil => simp [dictInsert, dictGet]
  | cons kv rest ih =>
    obtain ⟨k0, v0⟩ := kv
    by_cases hk : k0 = k
    · simp [dictInsert, hk, dictGet]
    · simp [dictInsert, hk, dictGet, ih]

lemma dictGet_insert_ne (d : CmdDict) (k : String) (v : MetaCommand)
    (x : String) (hx : x ≠ k) :
    dictGet (dictInsert d k v) x = dictGet d x := by
  have hkx : ¬ k = x := fun h => hx h.symm
  induction d with
  | nil => simp [dictInsert, dictGet, hkx]
  | cons kv rest ih =>
    obtain ⟨k0, v0⟩ := kv
    by_cases hk : k0 = k
    · subst hk
      simp [dictInsert, dictGet, hkx]
    · simp [dictInsert, hk, dictGet, ih]

lemma dictGet_foldl_insert (l : List String) (v : MetaCommand) (d : CmdDict)
    (x : String) :
    dictGet (l.foldl (fun d2 a => dictInsert d2 a v) d) x =
      if x ∈ l then some v else dictGet d x := by
  induction l generalizing d with
  | nil => simp
  | cons a l ih =>
    simp only [List.foldl_cons, ih]
    by_cases hx : x ∈ l
    · simp [hx]
    · by_cases hxa : x = a
      · subst hxa
        simp [hx, dictGet_insert_self]
      · simp [hx, hxa, dictGet_insert_ne d a v x hxa]

lemma dictKeys_insert (d : CmdDict) (k : String) (v : MetaCommand) :
    dictKeys (dictInsert d k v) =
      if k ∈ dictKeys d then dictKeys d else dictKeys d ++ [k] := by
  induction d with
  | nil => simp [dictInsert, dictKeys]
  | cons kv rest ih =>
    obtain ⟨k0, v0⟩ := kv
    by_cases hk : k0 = k
    · simp [dictInsert, hk, dictKeys]
    · have hk2 : ¬ k = k0 := fun h => hk h.symm
      simp only [dictInsert, hk, if_false]
      show k0 :: dictKeys (dictInsert rest k v) = _
      rw [ih]
      rw [show dictKeys ((k0, v0) :: rest) = k0 :: dictKeys rest from rfl]
      by_cases hmem : k ∈ dictKeys rest
      · rw [if_pos hmem, if_pos (List.mem_cons_of_mem _ hmem)]
      · rw [if_neg hmem, if_neg (by simp [List.mem_cons, hk2, hmem])]
        rfl

lemma mem_dictInsert (d : CmdDict) (k : String) (v : MetaCommand)
    (kv' : String × MetaCommand) :
    kv' ∈ dictInsert d k v → kv' = (k, v) ∨ kv' ∈ d := by
  induction d with
  | nil =>
    intro h
    simpa [dictInsert] using h
  | cons kv rest ih =>
    obtain ⟨k0, v0⟩ := kv
    intro h
    by_cases hk : k0 = k
    · simp only [dictInsert, hk, if_true, eq_self_iff_true, List.mem_cons] at h
      rcases h with h | h
      · exact Or.inl h
      · exact Or.inr (List.mem_cons_of_mem _ h)
    · simp only [dictInsert, hk, if_false, List.mem_cons] at h
      rcases h with h | h
      · exact Or.inr (by rw [h]; exact List.mem_cons_self _ _)
      · rcases ih h with h2 | h2
        · exact Or.inl h2
        · exact Or.inr (List.mem_cons_of_mem _ h2)

lemma dictKeys_insert_nodup (d : CmdDict) (k : String) (v : MetaCommand)
    (h : (dictKeys d).Nodup) : (dictKeys (dictInsert d k v)).Nodup := by
  rw [dictKeys_insert]
  by_cases hmem : k ∈ dictKeys d
  · simpa [hmem] using h
  · simp only [hmem, if_false]
    exact List.Nodup.append h (List.nodup_singleton k)
      (fun x hx hxk => hmem ((List.mem_singleton.mp hxk) ▸ hx))

lemma mem_dictKeys_insert_self (d : CmdDict) (k : String) (v : MetaCommand) :
    k ∈ dictKeys (dictInsert d k v) := by
  rw [dictKeys_insert]
  by_cases hmem : k ∈ dictKeys d
  · rw [if_pos hmem]
    exact hmem
  · rw [if_neg hmem]
    exact List.mem_append_right _ (List.mem_singleton_self k)

lemma mem_dictKeys_insert_mono (d : CmdDict) (k : String) (v : MetaCommand)
    (x : String) (h : x ∈ dictKeys d) : x ∈ dictKeys (dictInsert d k v) := by
  rw [dictKeys_insert]
  by_cases hmem : k ∈ dictKeys d
  · simpa [hmem] using h
  · simp only [hmem, if_false]
    exact List.mem_append_left _ h

/-! ## Registry lemmas -/

/-- How one registration changes lookups: the aliases and the primary name
now resolve to the new command, every other name is untouched. -/
lemma get_meta_command_register (st : MetaCmdState) (r : Registration)
    (x : String) :
    get_meta_command (registerMetaCommand st r) x =
      if x ∈ aliasListOf r then some (commandOf r)
      else if x = primaryOf r then some (commandOf r)
      else get_meta_command st x := by
  unfold get_meta_command registerMetaCommand
  rw [dictGet_foldl_insert]
  by_cases ha : x ∈ aliasListOf r
  · rw [if_pos ha, if_pos ha]
  · rw [if_neg ha, if_neg ha]
    by_cases hp : x = primaryOf r
    · rw [if_pos hp, hp, dictGet_insert_self]
    · rw [if_neg hp, dictGet_insert_ne _ _ _ _ hp]

/-- Well-formedness of the registry state: the primary dict has no repeated
keys and stores each command under its own name. -/
def RegWF (st : MetaCmdState) : Prop :=
  (dictKeys st.commands).Nodup ∧ ∀ kv ∈ st.commands, (kv.2).name = kv.1

lemma regWF_empty : RegWF emptyMetaCmdState :=
  ⟨List.nodup_nil, fun kv hkv => absurd hkv (List.not_mem_nil kv)⟩

lemma regWF_register (st : MetaCmdState) (r : Registration) (h : RegWF st) :
    RegWF (registerMetaCommand st r) := by
  constructor
  · exact dictKeys_insert_nodup _ _ _ h.1
  · intro kv hkv
    rcases mem_dictInsert _ _ _ kv hkv with heq | hmem
    · rw [heq]
      rfl
    · exact h.2 kv hmem

lemma regWF_foldl (regs : List Registration) :
    ∀ st, RegWF st → RegWF (regs.foldl registerMetaCommand st) := by
  induction regs with
  | nil => exact fun st h => h
  | cons r regs ih => exact fun st h => ih _ (regWF_register st r h)

lemma keys_mono_foldl (regs : List Registration) :
    ∀ st x, x ∈ dictKeys st.commands →
      x ∈ dictKeys ((regs.foldl registerMetaCommand st).commands) := by
  induction regs with
  | nil => exact fun st x h => h
  | cons r regs ih =>
    exact fun st x h => ih _ x (mem_dictKeys_insert_mono _ _ _ x h)

lemma primary_mem_keys_foldl (regs : List Registration) :
    ∀ st r, r ∈ regs →
      primaryOf r ∈ dictKeys ((regs.foldl registerMetaCommand st).commands) := by
  induction regs with
  | nil => exact fun st r h => absurd h (List.not_mem_nil r)
  | cons r0 regs ih =>
    intro st r h
    rcases List.mem_cons.mp h with heq | hmem
    · subst heq
      exact keys_mono_foldl regs _ _ (mem_dictKeys_insert_self _ _ _)
    · exact ih _ r hmem

/-- Under well-formedness, the names `get_meta_commands` reports are exactly
the primary dict's keys. -/
lemma names_eq_keys (st : MetaCmdState) (h : RegWF st) :
    (get_meta_commands st).map (fun c => c.name) = dictKeys st.commands := by
  unfold get_meta_commands dictKeys
  rw [List.map_map]
  exact List.map_congr_left (fun kv hkv => h.2 kv hkv)

lemma get_none_foldl (regs : List Registration) :
    ∀ st n, (∀ r ∈ regs, ¬ n = primaryOf r ∧ n ∉ aliasListOf r) →
      get_meta_command st n = none →
      get_meta_command (regs.foldl registerMetaCommand st) n = none := by
  induction regs with
  | nil => exact fun st n _ h0 => h0
  | cons r regs ih =>
    intro st n hfresh h0
    refine ih _ n (fun r2 h2 => hfresh r2 (List.mem_cons_of_mem _ h2)) ?_
    have hr := hfresh r (List.mem_cons_self _ _)
    rw [get_meta_command_register, if_neg hr.2, if_neg hr.1]
    exact h0

/-! ## Preview lemmas: the summarizer's `first_message` tracking equals a
first-match scan -/

lemma previewUpdate_firstMessage_none {fields : List (String × Json)}
    {info : SessionInfo} (h : info.firstMessage = none) :
    (previewUpdate (lookupLast fields "content") info).firstMessage =
      specUserText fields := by
  unfold previewUpdate specUserText
  cases lookupLast fields "content" with
  | none => exact h
  | some c =>
    by_cases hf : pyFalsy c
    · simpa [hf] using h
    · simp only [hf, Bool.false_eq_true, if_false]
      cases extractText c with
      | none => exact h
      | some text =>
        by_cases hw : (pyStartsWith text "<system>" && pyEndsWith text "</system>") = true
        · simpa [hw] using h
        · simp [hw]

lemma recordStep_firstMessage_some {fields : List (String × Json)}
    {info : SessionInfo} {s : String} (h : info.firstMessage = some s) :
    (recordStep fields info).firstMessage = some s := by
  unfold recordStep
  cases roleOf fields with
  | none => exact h
  | some r =>
    by_cases h1 : r = "_checkpoint"
    · simpa [h1] using h
    · simp only [h1, if_false]
      by_cases h2 : (r = "user" || r = "assistant") = true
      · simp only [h2, if_true, h, Option.some_ne_none (α := String)]
        simp [h]
      · simpa [h2] using h

lemma recordStep_firstMessage_not_user {fields : List (String × Json)}
    {info : SessionInfo} (h : ¬ roleOf fields = some "user") :
    (recordStep fields info).firstMessage = info.firstMessage := by
  unfold recordStep
  cases hrole : roleOf fields with
  | none => rfl
  | some r =>
    have hr : ¬ r = "user" := by
      intro hr
      exact h (by rw [hrole, hr])
    by_cases h1 : r = "_checkpoint"
    · simp [h1]
    · simp only [h1, if_false]
      by_cases h2 : (r = "user" || r = "assistant") = true
      · simp only [h2, if_true]
        simp [hr]
      · simp [h2]

lemma recordStep_firstMessage_user {fields : List (String × Json)}
    {info : SessionInfo} (h : roleOf fields = some "user")
    (h0 : info.firstMessage = none) :
    (recordStep fields info).firstMessage = specUserText fields := by
  simp only [recordStep, h]
  simp only [h0]
  norm_num
  exact previewUpdate_firstMessage_none rfl

lemma sessionScan_firstMessage_some (lines : List Line) {info : SessionInfo}
    {s : String} (h : info.firstMessage = some s) :
    (sessionScan lines info).firstMessage = some s := by
  induction lines generalizing info with
  | nil => exact h
  | cons l rest ih =>
    cases l with
    | blank => exact ih h
    | bad => exact h
    | record j =>
      cases j with
      | obj fields => exact ih (recordStep_firstMessage_some h)
      | str s => exact h
      | num n => exact h
      | bool b => exact h
      | null => exact h
      | arr elts => exact h

lemma sessionScan_firstMessage_spec (lines : List Line) (info : SessionInfo)
    (h : info.firstMessage = none) (hg : ∀ l ∈ lines, goodLine l = true) :
    (sessionScan lines info).firstMessage = specFirstPreview lines := by
  induction lines generalizing info with
  | nil => simpa [sessionScan, specFirstPreview] using h
  | cons l rest ih =>
    cases l with
    | blank =>
      simp only [sessionScan, specFirstPreview]
      exact ih info h (fun x hx => hg x (List.mem_cons_of_mem _ hx))
    | bad =>
      exact absurd (hg _ (List.mem_cons_self _ _)) (by simp [goodLine])
    | record j =>
      cases j with
      | obj fields =>
        have hrest : ∀ l ∈ rest, goodLine l = true :=
          fun x hx => hg x (List.mem_cons_of_mem _ hx)
        simp only [sessionScan, specFirstPreview]
        by_cases hrole : roleOf fields = some "user"
        · rw [if_pos hrole]
          have hstep := recordStep_firstMessage_user hrole h
          cases hsut : specUserText fields with
          | some t =>
            rw [hsut] at hstep
            exact sessionScan_firstMessage_some rest hstep
          | none =>
            rw [hsut] at hstep
            exact ih _ hstep hrest
        · rw [if_neg hrole]
          exact ih _ ((recordStep_firstMessage_not_user hrole).trans h) hrest
      | str s => exact absurd (hg _ (List.mem_cons_self _ _)) (by simp [goodLine])
      | num n => exact absurd (hg _ (List.mem_cons_self _ _)) (by simp [goodLine])
      | bool b => exact absurd (hg _ (List.mem_cons_self _ _)) (by simp [goodLine])
      | null => exact absurd (hg _ (List.mem_cons_self _ _)) (by simp [goodLine])
      | arr elts => exact absurd (hg _ (List.mem_cons_self _ _)) (by simp [goodLine])

/-! ## Catalog membership characterization -/

/-- What the elements of a successful `list_sessions` result are: exactly
the entries built from the `*.jsonl` files of the namespace directory whose
stem contains no underscore. -/
lemma mem_list_sessions {fs : FileSystem} {wd : String} {m : Metadata}
    {wdm : WorkDirMeta} {res : List SessionEntry}
    (hm : load_metadata fs.metadataFile = .ok m)
    (hfind : m.work_dirs.find? (fun w => w.path = wd) = some wdm)
    (hres : list_sessions fs wd = .ok res) (e : SessionEntry) :
    e ∈ res ↔ ∃ f, f ∈ fs.sessionFiles ∧ f.dir = sessions_dir_of wdm.path ∧
      pyEndsWith f.name ".jsonl" = true ∧
      (stemOf f.name).data.contains '_' = false ∧ e = entryOf wdm f := by
  simp only [list_sessions, hm, hfind, Except.ok.injEq] at hres
  subst hres
  simp only [List.mem_insertionSort, List.mem_map, List.mem_filter,
    Bool.not_eq_true', Bool.and_eq_true, decide_eq_true_eq, and_assoc]
  constructor
  · rintro ⟨f, hmem, hdir, hsuf, hstem, hef⟩
    exact ⟨f, hmem, hdir, hsuf, hstem, hef.symm⟩
  · rintro ⟨f, hmem, hdir, hsuf, hstem, hef⟩
    exact ⟨f, hmem, hdir, hsuf, hstem, hef.symm⟩

/-! ## Claim theorems -/

set_option maxRecDepth 40000 in
set_option maxRecDepth 40000 in
/-- C6: on every session file the summarizer can decode, the derived preview
is the normalized text of the first user message not wrapped in the
`<system>...</system>` delimiters (the spec-side first-match scan
`specFirstPreview`); concretely, a user message with content
`"<system>x</system>"` yields no preview, content `[{"text": "hello"}]`
yields preview `"hello"`, and text longer than the 50-character display
width is truncated to it. -/
theorem preview_is_first_genuine_user_message :
    (∀ mtime lines, (∀ l ∈ lines, goodLine l = true) →
      (getSessionInfo mtime lines).firstMessage = specFirstPreview lines) ∧
    (getSessionInfo 0 [Line.record (.obj [("role", .str "user"),
        ("content", .str "<system>x</system>")])]).firstMessage = none ∧
    (getSessionInfo 0 [Line.record (.obj [("role", .str "user"),
        ("content", .arr [.obj [("text", .str "hello")]])])]).firstMessage =
      some "hello" ∧
    (getSessionInfo 0 [Line.record (.obj [("role", .str "user"),
        ("content", .str "This is a very long message that keeps going and going beyond fifty characters.")])]).firstMessage =
      some "This is a very long message that keeps going and g" := by
  refine ⟨?_, rfl, rfl, rfl⟩
  intro mtime lines hg
  exact sessionScan_firstMessage_spec lines _ rfl hg

/-- C2 counterexample: a session file whose first record is a valid user
message and whose second line fails to decode. The decode failure is caught,
but the returned summary keeps the message count and preview accumulated
before the failure — it is not the all-zero summary the claim states. -/
theorem decode_failure_partial_summary_cex :
    getSessionInfo 0
        [Line.record (.obj [("role", .str "user"), ("content", .str "hi")]),
         Line.bad] =
      { timestamp := 0, numMessages := 1, numCheckpoints := 0,
        firstMessage := some "hi" } ∧
    ¬ ((getSessionInfo 0
          [Line.record (.obj [("role", .str "user"), ("content", .str "hi")]),
           Line.bad]).numMessages = 0 ∧
       (getSessionInfo 0
          [Line.record (.obj [("role", .str "user"), ("content", .str "hi")]),
           Line.bad]).numCheckpoints = 0 ∧
       (getSessionInfo 0
          [Line.record (.obj [("role", .str "user"), ("content", .str "hi")]),
           Line.bad]).firstMessage = none) := by
  constructor
  · rfl
  · intro h
    have h1 : (getSessionInfo 0
        [Line.record (.obj [("role", .str "user"), ("content", .str "hi")]),
         Line.bad]).numMessages = 1 := rfl
    exact Nat.one_ne_zero (h1.symm.trans h.1)

/-- The line loop stops at the first line that fails to decode: everything
before it is kept, everything after it is unread. -/
lemma sessionScan_append_bad (rest : List Line) (pre : List Line)
    (info : SessionInfo) :
    sessionScan (pre ++ Line.bad :: rest) info = sessionScan pre info := by
  induction pre generalizing info with
  | nil => rfl
  | cons l pre ih =>
    cases l with
    | blank => simpa [sessionScan] using ih info
    | bad => rfl
    | record j =>
      cases j with
      | obj fields => simpa [sessionScan] using ih (recordStep fields info)
      | str s => rfl
      | num n => rfl
      | bool b => rfl
      | null => rfl
      | arr elts => rfl

/-- C2 as amended: when a record of a session file fails to decode during
summarization, the exception is caught and the summary keeps exactly the
counts and preview accumulated from the records before the failing one
(all zero and no preview when the first record already fails), and the
listing is not aborted: every live session file — this one included — still
contributes its entry to `list_sessions`. -/
theorem decode_failure_keeps_prefix_and_listing :
    (∀ mtime pre rest,
      getSessionInfo mtime (pre ++ Line.bad :: rest) = getSessionInfo mtime pre) ∧
    (∀ rest, getSessionInfo 0 (Line.bad :: rest) =
      { timestamp := 0, numMessages := 0, numCheckpoints := 0,
        firstMessage := none }) ∧
    (∀ fs wd m wdm res f,
      load_metadata fs.metadataFile = .ok m →
      m.work_dirs.find? (fun w => w.path = wd) = some wdm →
      list_sessions fs wd = .ok res →
      f ∈ fs.sessionFiles → f.dir = sessions_dir_of wdm.path →
      pyEndsWith f.name ".jsonl" = true →
      (stemOf f.name).data.contains '_' = false →
      ∃ e, e ∈ res ∧ e.id = stemOf f.name ∧
        e.info = getSessionInfo f.mtime f.lines) := by
  refine ⟨?_, ?_, ?_⟩
  · intro mtime pre rest
    exact sessionScan_append_bad rest pre _
  · intro rest
    simp [getSessionInfo, sessionScan]
  · intro fs wd m wdm res f hm hfind hres hmem hdir hsuf hstem
    refine ⟨entryOf wdm f, ?_, rfl, rfl⟩
    exact (mem_list_sessions hm hfind hres _).mpr
      ⟨f, hmem, hdir, hsuf, hstem, rfl⟩

/-- C4: for every registry value (with zero, one, or many working-directory
records, each a path and an optional `last_session_id`), `save_metadata`
followed by `load_metadata` yields a registry equal to the one saved. -/
theorem metadata_save_load_round_trip (fs : FileSystem) (m : Metadata) :
    load_metadata ((save_metadata fs m).metadataFile) = .ok m := by
  simp [save_metadata, load_metadata, parseMetadata_dumpMetadata]

/-- C5: `load_metadata` returns an empty registry (without raising) when the
metadata document is absent, and surfaces a fatal parse error to the caller
when the document exists but is malformed JSON (a `json.load` failure) or
has an invalid shape (a pydantic validation failure) — shown both for every
invalid shape and at two concrete ill-shaped documents. -/
theorem load_metadata_absent_empty_malformed_fatal :
    load_metadata none = .ok ⟨[]⟩ ∧
    load_metadata (some .malformedText) = .error .jsonDecodeFailure ∧
    (∀ j e, parseMetadata j = .error e →
      load_metadata (some (.jsonText j)) = .error (.validationFailure e)) ∧
    load_metadata (some (.jsonText (.arr []))) =
      .error (.validationFailure "metadata document: not an object") ∧
    load_metadata (some (.jsonText (.obj [("work_dirs", .str "x")]))) =
      .error (.validationFailure "work_dirs: not a list") := by
  refine ⟨rfl, rfl, ?_, rfl, rfl⟩
  intro j e h
  simp [load_metadata, h]

/-- C3 (evaluating the code at the failing input): on any registry — here
one with a single record — `save_metadata` opens the live metadata document
itself with truncating write mode and writes the serialized registry into
it; its operation trace contains no rename and no temporary path. -/
theorem save_metadata_ops_write_in_place :
    save_metadata_ops ⟨[⟨"/w", none⟩]⟩ =
      [.openTruncate metadata_file_path,
       .writeDoc metadata_file_path (dumpMetadata ⟨[⟨"/w", none⟩]⟩)] ∧
    (∀ op ∈ save_metadata_ops ⟨[⟨"/w", none⟩]⟩,
      ∀ src dst, op ≠ FsOp.rename src dst) ∧
    (∀ op ∈ save_metadata_ops ⟨[⟨"/w", none⟩]⟩,
      ∀ doc, op ≠ FsOp.writeDoc "kimi.json.tmp" doc) := by
  refine ⟨rfl, ?_, ?_⟩
  · intro op hop src dst
    simp only [save_metadata_ops, List.mem_cons, List.not_mem_nil, or_false] at hop
    rcases hop with h | h <;> subst h <;> intro h <;> cases h
  · intro op hop doc
    simp only [save_metadata_ops, List.mem_cons, List.not_mem_nil, or_false] at hop
    rcases hop with h | h <;> subst h <;> simp [metadata_file_path]

set_option maxRecDepth 100000 in
/-- C8: the namespace mapping is a deterministic pure function of the
working-directory path string — repeated evaluations and evaluations at
equal path strings agree — and distinct paths get distinct namespace
directories, witnessed at concrete distinct paths through the embedded
MD5. -/
theorem namespace_mapping_deterministic_and_separating :
    (∀ p : String, sessions_dir_of p = sessions_dir_of p) ∧
    (∀ p q : String, p = q → sessions_dir_of p = sessions_dir_of q) ∧
    sessions_dir_of "/home/alice/project" ≠ sessions_dir_of "/home/bob/project" ∧
    sessions_dir_of "/a" ≠ sessions_dir_of "/b" := by
  refine ⟨fun p => rfl, fun p q h => by rw [h], by decide, by decide⟩

/-- C1: every entry a successful `list_sessions` returns has an underscore-free
session id and comes from a `*.jsonl` file of the namespace directory whose
stem contains no underscore; consequently a backup file named with the
fork-suffix convention (underscore in the stem) never matches any returned
entry, regardless of its content. -/
theorem backup_files_never_listed (fs : FileSystem) (wd : String)
    (res : List SessionEntry) (e : SessionEntry)
    (hres : list_sessions fs wd = .ok res) (he : e ∈ res) :
    e.id.data.contains '_' = false ∧
    (∃ f, f ∈ fs.sessionFiles ∧ f.dir = sessions_dir_of wd ∧
      pyEndsWith f.name ".jsonl" = true ∧ e.id = stemOf f.name ∧
      (stemOf f.name).data.contains '_' = false ∧
      e.info = getSessionInfo f.mtime f.lines) ∧
    (∀ g ∈ fs.sessionFiles, (stemOf g.name).data.contains '_' = true →
      e.id ≠ stemOf g.name) := by
  cases hm : load_metadata fs.metadataFile with
  | error err =>
    rw [list_sessions, hm] at hres
    cases hres
  | ok m =>
    cases hfind : m.work_dirs.find? (fun w => w.path = wd) with
    | none =>
      rw [list_sessions, hm] at hres
      simp only [hfind, Except.ok.injEq] at hres
      subst hres
      cases he
    | some wdm =>
      have hpath : wdm.path = wd := by simpa using List.find?_some hfind
      obtain ⟨f, hmem, hdir, hsuf, hstem, hef⟩ :=
        (mem_list_sessions hm hfind hres e).mp he
      subst hef
      refine ⟨by simpa [entryOf] using hstem,
        ⟨f, hmem, by rw [← hpath]; exact hdir, hsuf, rfl, hstem, rfl⟩, ?_⟩
      intro g _ hg hcontra
      rw [show (entryOf wdm f).id = stemOf f.name from rfl] at hcontra
      rw [hcontra] at hstem
      rw [hstem] at hg
      cases hg

/-- `setLastSessionFirst` really sets the looked-up record's
`last_session_id` to the given session id. -/
lemma setLastSessionFirst_find (l : List WorkDirMeta) (p sid : String)
    (wdm2 : WorkDirMeta)
    (h : (setLastSessionFirst l p sid).find? (fun w => w.path = p) = some wdm2) :
    wdm2.last_session_id = some sid := by
  induction l with
  | nil => cases h
  | cons wd rest ih =>
    by_cases hp : wd.path = p
    · simp only [setLastSessionFirst, if_pos hp] at h
      rw [List.find?_cons_of_pos _ (by simpa using hp)] at h
      cases h
      rfl
    · simp only [setLastSessionFirst, if_neg hp] at h
      rw [List.find?_cons_of_neg _ (by simpa using hp)] at h
      exact ih h

/-- C7: when the working directory is not in the registry, or the session's
live backing file `<session-id>.jsonl` does not exist in its namespace,
`load_session` returns `None` without raising and leaves the filesystem —
the metadata document included — unchanged; when both are found it returns
the session and saves the registry with the looked-up record's
`last_session_id` set to the given id. -/
theorem load_session_absent_graceful (fs : FileSystem) (wd sid : String)
    (m : Metadata) (hm : load_metadata fs.metadataFile = .ok m) :
    ((m.work_dirs.find? (fun w => w.path = wd) = none ∨
      fileExists fs (sessions_dir_of wd) (sid ++ ".jsonl") = false) →
      load_session fs wd sid = .ok (none, fs)) ∧
    (∀ wdm, m.work_dirs.find? (fun w => w.path = wd) = some wdm →
      fileExists fs (sessions_dir_of wd) (sid ++ ".jsonl") = true →
      load_session fs wd sid =
        .ok (some { id := sid, work_dir := wd,
                    history_file := sessions_dir_of wd ++ "/" ++ sid ++ ".jsonl" },
             save_metadata fs ⟨setLastSessionFirst m.work_dirs wd sid⟩)) ∧
    (∀ wdm2,
      (setLastSessionFirst m.work_dirs wd sid).find? (fun w => w.path = wd) =
        some wdm2 →
      wdm2.last_session_id = some sid) := by
  refine ⟨?_, ?_, fun wdm2 h => setLastSessionFirst_find _ _ _ _ h⟩
  · intro hfail
    rcases hfail with hnone | hnofile
    · simp only [load_session, hm, hnone]
    · cases hfind : m.work_dirs.find? (fun w => w.path = wd) with
      | none => simp only [load_session, hm, hfind]
      | some wdm =>
        have hpath : wdm.path = wd := by simpa using List.find?_some hfind
        simp only [load_session, hm, hfind, hpath, hnofile, Bool.false_eq_true,
          if_false]
  · intro wdm hfind hex
    have hpath : wdm.path = wd := by simpa using List.find?_some hfind
    simp only [load_session, hm, hfind, hpath, hex, if_true]

/-- Working-directory record used by the concrete catalog scenarios. -/
def wdmEx : WorkDirMeta := ⟨"/w", none⟩

/-- Registry holding that one record. -/
def mEx : Metadata := ⟨[wdmEx]⟩

/-- The namespace directory of `"/w"`. -/
def nsEx : String := sessions_dir_of "/w"

/-- A filesystem with the registry document, one live session file
`abc.jsonl`, and one fork-backup file `abc_bak.jsonl`. -/
def fsEx : FileSystem :=
  { metadataFile := some (.jsonText (dumpMetadata mEx)),
    sessionFiles :=
      [⟨nsEx, "abc.jsonl", 5, []⟩, ⟨nsEx, "abc_bak.jsonl", 9, []⟩] }

/-- The single entry the scan of `fsEx` yields. -/
def eEx : SessionEntry :=
  { id := "abc", file := nsEx ++ "/" ++ "abc.jsonl",
    info := { timestamp := 5, numMessages := 0, numCheckpoints := 0,
              firstMessage := none },
    isCurrent := false }

set_option maxRecDepth 1000000 in
/-- C1 witness: the concrete two-file scenario — the backup is dropped, the
live file's entry satisfies every clause of the theorem. -/
theorem backup_files_never_listed_witness :
    eEx.id.data.contains '_' = false ∧
    (∃ f, f ∈ fsEx.sessionFiles ∧ f.dir = sessions_dir_of "/w" ∧
      pyEndsWith f.name ".jsonl" = true ∧ eEx.id = stemOf f.name ∧
      (stemOf f.name).data.contains '_' = false ∧
      eEx.info = getSessionInfo f.mtime f.lines) ∧
    (∀ g ∈ fsEx.sessionFiles, (stemOf g.name).data.contains '_' = true →
      eEx.id ≠ stemOf g.name) :=
  backup_files_never_listed fsEx "/w" [eEx] eEx (by decide)
    (List.mem_singleton.mpr rfl)

set_option maxRecDepth 1000000 in
/-- C7 witness: in the concrete scenario, resolving the present `abc.jsonl`
succeeds and rewrites the registry, while the same call on a filesystem
missing the file returns `None` and leaves everything unchanged. -/
theorem load_session_absent_graceful_witness :
    load_session fsEx "/w" "abc" =
      .ok (some { id := "abc", work_dir := "/w",
                  history_file := sessions_dir_of "/w" ++ "/" ++ "abc" ++ ".jsonl" },
           save_metadata fsEx ⟨setLastSessionFirst mEx.work_dirs "/w" "abc"⟩) ∧
    load_session { fsEx with sessionFiles := [] } "/w" "abc" =
      .ok (none, { fsEx with sessionFiles := [] }) := by
  constructor
  · exact (load_session_absent_graceful fsEx "/w" "abc" mEx (by decide)).2.1
      wdmEx (by decide) (by decide)
  · exact (load_session_absent_graceful { fsEx with sessionFiles := [] }
      "/w" "abc" mEx (by decide)).1 (Or.inr (by decide))

/-- C9: `clear` never invokes `revert_to` when `n_checkpoints == 0` — it
prints the "context is empty" outcome and returns, its effect trace free of
any revert — and it calls `revert_to(0)` exactly when `n_checkpoints > 0`;
`compact` performs the same guard before compacting. -/
theorem clear_compact_empty_context_guard :
    clear 0 = [.print "Context is empty."] ∧
    (∀ e ∈ clear 0, ∀ i, e ≠ UiEffect.revertTo i) ∧
    (∀ n, 0 < n → clear n = [.revertTo 0, .print "✓ Context has been cleared."]) ∧
    compact 0 = [.print "Context is empty."] ∧
    (UiEffect.compactContext ∉ compact 0) ∧
    (∀ n, 0 < n → compact n = [.compactContext, .print "✓ Context has been compacted."]) := by
  refine ⟨rfl, ?_, ?_, rfl, ?_, ?_⟩
  · intro e he i
    simp [clear] at he
    subst he
    simp
  · intro n hn
    simp [clear, Nat.pos_iff_ne_zero.mp hn]
  · intro h
    simp [compact] at h
  · intro n hn
    simp [compact, Nat.pos_iff_ne_zero.mp hn]

/-- C10: after registering a handler with primary name `n` and aliases
`a1..ak`, `get_meta_command` returns the same `MetaCommand` for `n` and for
every alias; `get_meta_command` on a name that no registration used as
primary name or alias returns `None`; and `get_meta_commands` lists each
registered command exactly once by primary name — the name list has no
duplicates, aliases adding nothing to it — with every registered primary
name present. -/
theorem meta_command_registry_contract :
    (∀ st r,
      get_meta_command (registerMetaCommand st r) (primaryOf r) =
        some (commandOf r) ∧
      ∀ a ∈ aliasListOf r,
        get_meta_command (registerMetaCommand st r) a = some (commandOf r)) ∧
    (∀ regs n, (∀ r ∈ regs, ¬ n = primaryOf r ∧ n ∉ aliasListOf r) →
      get_meta_command (applyRegistrations regs) n = none) ∧
    (∀ regs,
      ((get_meta_commands (applyRegistrations regs)).map
        (fun c => c.name)).Nodup ∧
      ∀ r ∈ regs,
        primaryOf r ∈
          (get_meta_commands (applyRegistrations regs)).map
            (fun c => c.name)) := by
  refine ⟨?_, ?_, ?_⟩
  · intro st r
    constructor
    · rw [get_meta_command_register]
      by_cases ha : primaryOf r ∈ aliasListOf r
      · rw [if_pos ha]
      · rw [if_neg ha, if_pos rfl]
    · intro a ha
      rw [get_meta_command_register, if_pos ha]
  · intro regs n hfresh
    exact get_none_foldl regs emptyMetaCmdState n hfresh rfl
  · intro regs
    have hwf : RegWF (applyRegistrations regs) :=
      regWF_foldl regs emptyMetaCmdState regWF_empty
    rw [names_eq_keys _ hwf]
    exact ⟨hwf.1, fun r hr => primary_mem_keys_foldl regs emptyMetaCmdState r hr⟩

end KimiCli
